import Mathlib

/-!
Shallow embedding of the strffi string library (structures, allocation,
ownership transfer, and the wide/multibyte transcoding iterators), together
with theorems settling the specification claims.

Modelling conventions:
* Machine integers are `Nat` with explicit `% 2^w` where the source casts
  (`as u32`, `as u16`) matter.  `usize` arithmetic is parameterised by
  `wordMax` (the value of `usize::MAX`), so the `checked_add`/`checked_mul`
  overflow tests of the source become comparisons against `wordMax`.
* A transcoding iterator is a state record mirroring the Rust struct; its
  `next` method becomes a function `state → Option item × state`.  The inner
  source iterator (`iter : Option<It>`) is modelled as `Option (List Nat)`,
  the list being the remaining units.
* Heap allocations are modelled by their contents: an owned zero-terminated
  or sliced string is identified with the list of units stored in its buffer,
  and raw pointers (for ownership transfer) are `Nat` addresses with `0` as
  the null pointer, exactly as the source's null tests require.
* The host C routines `mbrtowc`/`wcrtomb` and the hash state are opaque to
  the library, so they are universally quantified function parameters.
-/

namespace Strffi

/-- Transcoding error type of `src/encoding/conv/mod.rs` (`WcToUniError`). -/
inductive WcToUniError where
  | InvalidAt (off : Nat)
  | Incomplete
  deriving DecidableEq

/-- State of the Linux `WcToUniIter` (src/encoding/conv/linux.rs): the `at`
counter (here `pos`) and the optional inner iterator, modelled as the list of
remaining wide units (each unit being the `u32` value of `cp.0 as u32`). -/
structure LinuxWcToUniIter where
  pos : Nat
  iter : Option (List Nat)
  deriving DecidableEq

/-- One call of `<WcToUniIter as Iterator>::next` from
src/encoding/conv/linux.rs lines 53-85.  The source matches the unit against
the inclusive ranges `0x000000...0x02FFFF` (accept), `0x030000...0x0DFFFF`
(invalid, fuse), `0x0E0000...0x10FFFF` (accept) and everything else
(invalid, fuse); accepted units are transmuted to `char` unchanged. -/
def linuxWcToUniNext (s : LinuxWcToUniIter) :
    Option (Except WcToUniError Nat) × LinuxWcToUniIter :=
  match s.iter with
  | none => (none, s)
  | some [] => (none, s)
  | some (w :: rest) =>
    let cp := w % 4294967296
    if cp ≤ 0x02FFFF then
      (some (.ok cp), ⟨s.pos + 1, some rest⟩)
    else if cp ≤ 0x0DFFFF then
      (some (.error (.InvalidAt s.pos)), ⟨s.pos, none⟩)
    else if cp ≤ 0x10FFFF then
      (some (.ok cp), ⟨s.pos + 1, some rest⟩)
    else
      (some (.error (.InvalidAt s.pos)), ⟨s.pos, none⟩)

/-- State of the Windows `WcToUniIter` (src/encoding/conv/windows.rs):
the `at` counter and the remaining 16-bit wide units. -/
structure WinWcToUniIter where
  pos : Nat
  iter : Option (List Nat)
  deriving DecidableEq

/-- One call of `<WcToUniIter as Iterator>::next` from
src/encoding/conv/windows.rs lines 53-114: UTF-16 surrogate-pair decoding.
Units in `0x0000...0xD7FF` and `0xE000...0xFFFF` pass through; a lone low
surrogate (`0xDC00...0xDFFF`) is `InvalidAt` and fuses; a high surrogate
pulls a second unit — end of input is `Incomplete`, a non-low second unit is
`InvalidAt`, and a low surrogate combines as
`0x10000 + ((cu0 & 0x3FF) << 10 | (cu1 & 0x3FF))`. -/
def winWcToUniNext (s : WinWcToUniIter) :
    Option (Except WcToUniError Nat) × WinWcToUniIter :=
  match s.iter with
  | none => (none, s)
  | some [] => (none, s)
  | some (w :: rest) =>
    let cu0 := w % 65536
    if cu0 ≤ 0xD7FF ∨ 0xE000 ≤ cu0 then
      (some (.ok cu0), ⟨s.pos + 1, some rest⟩)
    else if 0xDC00 ≤ cu0 then
      (some (.error (.InvalidAt s.pos)), ⟨s.pos, none⟩)
    else
      match rest with
      | [] => (some (.error .Incomplete), ⟨s.pos, none⟩)
      | w1 :: rest' =>
        let cu1 := w1 % 65536
        if 0xDC00 ≤ cu1 ∧ cu1 ≤ 0xDFFF then
          (some (.ok (0x10000 + (((cu0 % 0x400) <<< 10) ||| (cu1 % 0x400)))),
            ⟨s.pos + 2, some rest'⟩)
        else
          (some (.error (.InvalidAt s.pos)), ⟨s.pos, none⟩)

/-- The item produced by the n-th call of `next` (0-indexed) when a stateful
iterator is polled repeatedly from a given state. -/
def nthItem {σ ι : Type _} (step : σ → Option ι × σ) : Nat → σ → Option ι
  | 0, s => (step s).1
  | n + 1, s => nthItem step n (step s).2

/-- Collect the items an iterator yields, polling at most `fuel` times and
stopping at the first absent item (as a `for` loop over the iterator would). -/
def collectItems {σ ι : Type _} (step : σ → Option ι × σ) :
    Nat → σ → List ι
  | 0, _ => []
  | n + 1, s =>
    match step s with
    | (none, _) => []
    | (some it, s') => it :: collectItems step n s'

/-- The set of Unicode scalar values the specification's transcoding table
demands the Linux wide-to-Unicode transcoder accept.  Modelled from the
spec: validate scalar range [0x0…0xD7FF] ∪ [0xE000…0x10FFFF]. -/
def specValidScalar (cp : Nat) : Prop :=
  cp ≤ 0xD7FF ∨ (0xE000 ≤ cp ∧ cp ≤ 0x10FFFF)

instance (cp : Nat) : Decidable (specValidScalar cp) := by
  unfold specValidScalar
  infer_instance

/-- Error type of the multibyte-to-wide transcoder
(src/encoding/conv/mb_x_wc.rs, `MbsToWcError`). -/
inductive MbsToWcError where
  | InvalidAt (off : Nat)
  | Incomplete
  | OutOfBufferAt (off : Nat)
  deriving DecidableEq

/-- Error type of the wide-to-multibyte transcoder
(src/encoding/conv/mb_x_wc.rs, `WcsToMbError`). -/
inductive WcsToMbError where
  | InvalidAt (off : Nat)
  deriving DecidableEq

/-- The `MB_LEN_MAX` buffer bound from src/ffi.rs. -/
def mbLenMax : Nat := 16

/-- Outcome of one call of the host routine `mbrtowc` on the buffered units
and a conversion state: the source distinguishes the return values `-1`
(illegal sequence), `-2` (incomplete sequence) and success, where success
yields the decoded wide unit and an updated `mbstate_t`. -/
inductive MbrtowcResult (σ : Type _) where
  | illegal
  | incomplete
  | ok (wc : Nat) (st : σ)

/-- State of `MbsToWcIter2` (src/encoding/conv/mb_x_wc.rs): optional inner
iterator of remaining multibyte units, the `at` counter and the host
conversion state (the local pull buffer of `next` is not part of the state). -/
structure MbsToWcIter (σ : Type _) where
  iter : Option (List Nat)
  pos : Nat
  state : σ

/-- Result of the inner `loop` of `MbsToWcIter2::next`: the inner iterator was
already exhausted with an empty buffer (the call returns absent without
fusing), or an error was selected (the call fuses), or a wide unit is emitted
with the advanced offset, the updated conversion state and the remaining
input. -/
inductive MbLoopOut (σ : Type _) where
  | exhausted
  | fail (e : MbsToWcError)
  | emit (wc : Nat) (pos' : Nat) (st' : σ) (rest : List Nat)

/-- The buffering `loop` of `MbsToWcIter2::next` (src/encoding/conv/mb_x_wc.rs
lines 97-149): grow the local buffer one unit at a time, calling `mbrtowc`
from the *stored* conversion state each round; a full buffer is
`OutOfBufferAt`, exhaustion with a non-empty buffer is `Incomplete`, an
illegal sequence is `InvalidAt`, an incomplete sequence keeps buffering, and
success advances `at` by the number of buffered units. -/
def mbsToWcLoop {σ : Type _} (f : List Nat → σ → MbrtowcResult σ)
    (pos : Nat) (st : σ) : List Nat → List Nat → MbLoopOut σ
  | buf, [] =>
    if buf.length = mbLenMax then .fail (.OutOfBufferAt pos)
    else if buf.length = 0 then .exhausted
    else .fail .Incomplete
  | buf, u :: rest =>
    if buf.length = mbLenMax then .fail (.OutOfBufferAt pos)
    else
      let buf' := buf ++ [u]
      match f buf' st with
      | .illegal => .fail (.InvalidAt pos)
      | .incomplete => mbsToWcLoop f pos st buf' rest
      | .ok wc st' => .emit wc (pos + buf'.length) st' rest

/-- One call of `<MbsToWcIter2 as Iterator>::next`
(src/encoding/conv/mb_x_wc.rs lines 82-155): run the buffering loop; on any
error the inner iterator is dropped (`self.iter = None`) before the error
item is yielded, so the iterator fuses. -/
def mbsToWcNext {σ : Type _} (f : List Nat → σ → MbrtowcResult σ)
    (s : MbsToWcIter σ) : Option (Except MbsToWcError Nat) × MbsToWcIter σ :=
  match s.iter with
  | none => (none, s)
  | some input =>
    match mbsToWcLoop f s.pos s.state [] input with
    | .exhausted => (none, s)
    | .fail e => (some (.error e), ⟨none, s.pos, s.state⟩)
    | .emit wc pos' st' rest => (some (.ok wc), ⟨some rest, pos', st'⟩)

/-- Outcome of one call of the host routine `wcrtomb` on a wide unit and a
conversion state: the source distinguishes the return value `-1` (illegal)
from success, where success reports the multibyte units written into the
destination buffer together with the updated `mbstate_t`.  (On an illegal
unit the clobbered state is irrelevant: the iterator fuses and never reads
it again.) -/
inductive WcrtombResult (σ : Type _) where
  | illegal
  | wrote (units : List Nat) (st : σ)

/-- State of `WcsToMbIter` (src/encoding/conv/mb_x_wc.rs): optional inner
iterator of remaining wide units, the `at` counter, the queue of already
converted multibyte units still to drain (`buf[buf_at..buf_len]`) and the
host conversion state. -/
structure WcsToMbIter (σ : Type _) where
  iter : Option (List Nat)
  pos : Nat
  buf : List Nat
  state : σ

/-- Result of one call of `WcsToMbIter::next`: either the call panics (the
source panics when `wcrtomb` writes zero units or more than `MB_LEN_MAX`
units), or it yields an optional item and the successor state. -/
inductive WcsStep (σ : Type _) where
  | panicked
  | yield (item : Option (Except WcsToMbError Nat)) (s : WcsToMbIter σ)

/-- One call of `<WcsToMbIter as Iterator>::next`
(src/encoding/conv/mb_x_wc.rs lines 157-210): drain the pending buffer first;
otherwise pull one wide unit and call `wcrtomb` — an illegal unit drops the
inner iterator (fusing) and yields `InvalidAt`, a successful conversion
yields the first written unit and queues the rest. -/
def wcsToMbNext {σ : Type _} (g : Nat → σ → WcrtombResult σ)
    (s : WcsToMbIter σ) : WcsStep σ :=
  match s.buf with
  | mbu :: brest => .yield (some (.ok mbu)) ⟨s.iter, s.pos, brest, s.state⟩
  | [] =>
    match s.iter with
    | none => .yield none s
    | some [] => .yield none s
    | some (wcu :: rest) =>
      match g wcu s.state with
      | .illegal =>
        .yield (some (.error (.InvalidAt s.pos))) ⟨none, s.pos, s.buf, s.state⟩
      | .wrote [] _ => .panicked
      | .wrote (m0 :: ms) st' =>
        if mbLenMax < (m0 :: ms).length then .panicked
        else .yield (some (.ok m0)) ⟨some rest, s.pos + 1, ms, st'⟩

/-- The item produced by the n-th call of `WcsToMbIter::next` (0-indexed),
with absent recorded for a call that panics. -/
def wcsToMbNth {σ : Type _} (g : Nat → σ → WcrtombResult σ) :
    Nat → WcsToMbIter σ → Option (Except WcsToMbError Nat)
  | 0, s =>
    match wcsToMbNext g s with
    | .panicked => none
    | .yield it _ => it
  | n + 1, s =>
    match wcsToMbNext g s with
    | .panicked => none
    | .yield _ s' => wcsToMbNth g n s'

/-- The concrete allocation error type of src/alloc/mod.rs (`AllocError`),
whose `AllocatorError::overflow()` constructor is `SizeOverflow`. -/
inductive AllocError where
  | Failed
  | CannotAlign
  | SizeOverflow
  deriving DecidableEq

/-- The `add_term` test of `ZeroTerm::alloc_owned` (src/structure/mod.rs line
290): append a terminator unless the units are non-empty and already end in
the zero unit `z`. -/
def zeroTermAddTerm {α : Type} [DecidableEq α] (z : α) (units : List α) : Bool :=
  ! (decide (0 < units.length) && decide (units.getLast? = some z))

/-- The unit count `total_u` of `ZeroTerm::alloc_owned` before the overflow
checks: the input length plus one for the terminator when one is appended. -/
def zeroTermTotalU {α : Type} [DecidableEq α] (z : α) (units : List α) : Nat :=
  units.length + (if zeroTermAddTerm z units then 1 else 0)

/-- The byte count `total_b` of `ZeroTerm::alloc_owned`: `total_u` multiplied
by the unit size. -/
def zeroTermTotalB {α : Type} [DecidableEq α] (z : α) (unitB : Nat)
    (units : List α) : Nat :=
  zeroTermTotalU z units * unitB

/-- `ZeroTerm::alloc_owned` (src/structure/mod.rs lines 287-309) under the
buffer-contents memory model.  `checked_add`/`checked_mul` against the word
size `wordMax` produce the allocator's overflow error; `A::alloc_bytes` is
the abstract parameter `allocBytes` (called with `total_b` bytes and the unit
alignment); on success the buffer holds the copied units with a zero unit
stored in its final cell (`s[..units.len()] = units; s[total_u-1] = zero`,
which is `units.take (total_u - 1) ++ [z]` in both the appended and the
already-terminated case). -/
def zeroTermAllocOwned {α : Type} [DecidableEq α] (z : α)
    (wordMax unitB align : Nat) {ε : Type} (overflowErr : ε)
    (allocBytes : Nat → Nat → Except ε Unit) (units : List α) :
    Except ε (List α) :=
  if wordMax < zeroTermTotalU z units then .error overflowErr
  else if wordMax < zeroTermTotalB z unitB units then .error overflowErr
  else
    match allocBytes (zeroTermTotalB z unitB units) align with
    | .error e => .error e
    | .ok _ => .ok (units.take (zeroTermTotalU z units - 1) ++ [z])

/-- `Slice::alloc_owned` (src/structure/mod.rs lines 488-503): `checked_mul`
of the unit count by the unit size against the word size, then allocation and
a plain copy (no terminator). -/
def sliceAllocOwned {α : Type} (wordMax unitB align : Nat) {ε : Type}
    (overflowErr : ε) (allocBytes : Nat → Nat → Except ε Unit)
    (units : List α) : Except ε (List α) :=
  if wordMax < units.length * unitB then .error overflowErr
  else
    match allocBytes (units.length * unitB) align with
    | .error e => .error e
    | .ok _ => .ok units

/-- `ZeroTerm::slice_units` (src/structure/mod.rs lines 233-245): scan the
buffer from the borrowed pointer, counting units until the first zero unit;
the returned slice excludes the terminator. -/
def zeroTermSliceUnits {α : Type} [DecidableEq α] (z : α) : List α → List α
  | [] => []
  | u :: rest => if u = z then [] else u :: zeroTermSliceUnits z rest

/-- `ZeroTerm::slice_units_with_term` (src/structure/mod.rs lines 344-358):
the same scan with the length seeded at one, so the returned slice includes
the terminating zero unit. -/
def zeroTermSliceUnitsWithTerm {α : Type} [DecidableEq α] (z : α) :
    List α → List α
  | [] => []
  | u :: rest =>
    if u = z then [u] else u :: zeroTermSliceUnitsWithTerm z rest

/-- `Slice::slice_units` (src/structure/mod.rs lines 458-460): the identity
on the pointer-plus-length view. -/
def sliceSliceUnits {α : Type} (units : List α) : List α :=
  units

/-- `SeaString::new` over the `ZeroTerm` structure (src/sea.rs lines 427-432):
the constructor only calls `S::alloc_owned` and stores the result as the
`owned` field — no content validation of any kind is performed.  Under the
buffer-contents memory model the owned value is the allocated buffer. -/
def seaStringNewZ {α : Type} [DecidableEq α] (z : α)
    (wordMax unitB align : Nat) {ε : Type} (overflowErr : ε)
    (allocBytes : Nat → Nat → Except ε Unit) (units : List α) :
    Except ε (List α) :=
  zeroTermAllocOwned z wordMax unitB align overflowErr allocBytes units

/-- Constructing an owned `ZeroTerm` string from units and then reading
`as_units()` (which is `ZeroTerm::slice_units` on the borrow of the owned
buffer). -/
def zeroTermNewThenAsUnits {α : Type} [DecidableEq α] (z : α)
    (wordMax unitB align : Nat) {ε : Type} (overflowErr : ε)
    (allocBytes : Nat → Nat → Except ε Unit) (units : List α) :
    Except ε (List α) :=
  (zeroTermAllocOwned z wordMax unitB align overflowErr allocBytes units).map
    (zeroTermSliceUnits z)

/-- Constructing an owned `Slice` string from units and then reading
`as_units()` (which is `Slice::slice_units`, the identity). -/
def sliceNewThenAsUnits {α : Type} (wordMax unitB align : Nat) {ε : Type}
    (overflowErr : ε) (allocBytes : Nat → Nat → Except ε Unit)
    (units : List α) : Except ε (List α) :=
  (sliceAllocOwned wordMax unitB align overflowErr allocBytes units).map
    sliceSliceUnits

/-- An owned `SeaString<ZeroTerm, E, A>` under the raw-pointer model:
`ZeroTerm::Owned = *mut ()`, a machine address with `0` as null. -/
structure SeaStringZPtr where
  owned : Nat
  deriving DecidableEq

/-- An owned `SeaString<Slice, E, A>` under the raw-pointer model:
`Slice::Owned = (*mut (), usize)`. -/
structure SeaStringSPtr where
  owned : Nat × Nat
  deriving DecidableEq

/-- `ZeroTerm`'s `OwnershipTransfer::owned_from_ffi_ptr` (src/structure/mod.rs
lines 329-335): null is rejected, any other pointer is taken over as-is. -/
def zeroTermOwnedFromFfiPtr (p : Nat) : Option Nat :=
  if p = 0 then none else some p

/-- `ZeroTerm`'s `OwnershipTransfer::into_ffi_ptr` (src/structure/mod.rs
lines 337-341): read the owned pointer, overwrite the owned field with null,
and return the old value.  The pair is (returned pointer, owned field after
the call). -/
def zeroTermIntoFfiPtr (owned : Nat) : Nat × Nat :=
  (owned, 0)

/-- `Slice`'s `OwnershipTransfer::owned_from_ffi_ptr` (src/structure/mod.rs
lines 523-529): a null data pointer is rejected. -/
def sliceOwnedFromFfiPtr (p : Nat × Nat) : Option (Nat × Nat) :=
  if p.1 = 0 then none else some p

/-- `Slice`'s `OwnershipTransfer::into_ffi_ptr` (src/structure/mod.rs lines
531-535): read the owned pair, overwrite the owned field with (null, 0), and
return the old pair. -/
def sliceIntoFfiPtr (owned : Nat × Nat) : (Nat × Nat) × (Nat × Nat) :=
  (owned, (0, 0))

/-- `SeaString::from_ptr` over `ZeroTerm` (src/sea.rs lines 457-465):
delegate to `owned_from_ffi_ptr`, absent on null. -/
def seaFromPtrZ (p : Nat) : Option SeaStringZPtr :=
  (zeroTermOwnedFromFfiPtr p).map (fun o => ⟨o⟩)

/-- `SeaString::into_ptr` over `ZeroTerm` (src/sea.rs lines 472-479): call
`into_ffi_ptr` on the owned field, then `mem::forget(self)`.  The pair is
(returned pointer, the owned field at the moment the destructor is
suppressed). -/
def seaIntoPtrZ (x : SeaStringZPtr) : Nat × Nat :=
  zeroTermIntoFfiPtr x.owned

/-- `SeaString::from_ptr` over `Slice` (src/sea.rs lines 457-465). -/
def seaFromPtrS (p : Nat × Nat) : Option SeaStringSPtr :=
  (sliceOwnedFromFfiPtr p).map (fun o => ⟨o⟩)

/-- `SeaString::into_ptr` over `Slice` (src/sea.rs lines 472-479). -/
def seaIntoPtrS (x : SeaStringSPtr) : (Nat × Nat) × (Nat × Nat) :=
  sliceIntoFfiPtr x.owned

/-- `Malloc::free` (src/alloc/mod.rs lines 121-126): frees the pointed-to
allocation unless the pointer is null.  The result records the freed address,
absent when the call is a no-op. -/
def mallocFree (p : Nat) : Option Nat :=
  if p = 0 then none else some p

/-- `ZeroTerm::free_owned` (src/structure/mod.rs lines 311-315): hand the
owned pointer to the allocator's `free`. -/
def zeroTermFreeOwned (owned : Nat) : Option Nat :=
  mallocFree owned

/-- `Slice::free_owned` (src/structure/mod.rs lines 505-509): hand the data
pointer of the owned pair to the allocator's `free`. -/
def sliceFreeOwned (owned : Nat × Nat) : Option Nat :=
  mallocFree owned.1

/-- `SeStr::as_units` for a `ZeroTerm` string, reading the memory at the
borrowed pointer (src/sea.rs lines 115-117 delegating to
`ZeroTerm::slice_units`). -/
def seStrAsUnitsZ {α : Type} [DecidableEq α] (z : α) (mem : List α) : List α :=
  zeroTermSliceUnits z mem

/-- `SeStr::as_units` for a `Slice` string (src/sea.rs lines 115-117
delegating to `Slice::slice_units`). -/
def seStrAsUnitsS {α : Type} (units : List α) : List α :=
  sliceSliceUnits units

/-- `PartialEq::eq` between two `ZeroTerm` strings (src/sea.rs lines 348-357):
compare the `as_units()` slices. -/
def seStrEqZZ {α : Type} [DecidableEq α] (z : α) (a b : List α) : Prop :=
  seStrAsUnitsZ z a = seStrAsUnitsZ z b

/-- `PartialEq::eq` between a `ZeroTerm` string and a `Slice` string of the
same encoding (src/sea.rs lines 348-357, with `S` and `T` different
structures). -/
def seStrEqZS {α : Type} [DecidableEq α] (z : α) (a b : List α) : Prop :=
  seStrAsUnitsZ z a = seStrAsUnitsS b

/-- `PartialEq::eq` between two `Slice` strings (src/sea.rs lines 348-357). -/
def seStrEqSS {α : Type} (a b : List α) : Prop :=
  seStrAsUnitsS a = seStrAsUnitsS b

/-- `Hash::hash` for a `ZeroTerm` string (src/sea.rs lines 321-325):
`Hash::hash_slice(self.as_units(), state)`, with the hasher's action on a
unit slice abstracted as `hashSlice`. -/
def seStrHashZ {α β : Type} [DecidableEq α] (z : α) (hashSlice : List α → β)
    (mem : List α) : β :=
  hashSlice (seStrAsUnitsZ z mem)

/-- `Hash::hash` for a `Slice` string (src/sea.rs lines 321-325). -/
def seStrHashS {α β : Type} (hashSlice : List α → β) (units : List α) : β :=
  hashSlice (seStrAsUnitsS units)

/-! Helper lemmas. -/

/-- A state on which `step` yields nothing and stays put yields nothing on
every subsequent poll. -/
theorem nthItem_of_stuck {σ ι : Type _} (step : σ → Option ι × σ) (s : σ)
    (h : step s = (none, s)) : ∀ n, nthItem step n s = none := by
  intro n
  induction n with
  | zero => simp [nthItem, h]
  | succ n ih => simp [nthItem, h, ih]

/-- A state on which `step` yields nothing contributes no collected items,
whatever the poll budget. -/
theorem collectItems_of_stuck {σ ι : Type _} (step : σ → Option ι × σ) (s : σ)
    (h : step s = (none, s)) : ∀ fuel, collectItems step fuel s = [] := by
  intro fuel
  cases fuel with
  | zero => rfl
  | succ n => simp [collectItems, h]

theorem linuxWcToUniNext_of_iter_none {s : LinuxWcToUniIter}
    (h : s.iter = none) : linuxWcToUniNext s = (none, s) := by
  rcases s with ⟨pos, iter⟩
  simp only at h
  subst h
  rfl

theorem linuxWcToUniNext_error_iter_none {s s' : LinuxWcToUniIter}
    {e : WcToUniError} (h : linuxWcToUniNext s = (some (.error e), s')) :
    s'.iter = none := by
  rcases s with ⟨pos, iter⟩
  rcases iter with _ | ⟨_ | ⟨w, rest⟩⟩
  · simp [linuxWcToUniNext] at h
  · simp [linuxWcToUniNext] at h
  · simp only [linuxWcToUniNext] at h
    split at h
    · simp at h
    · split at h
      · rw [Prod.mk.injEq] at h
        obtain ⟨-, h2⟩ := h
        subst h2
        rfl
      · split at h
        · simp at h
        · rw [Prod.mk.injEq] at h
          obtain ⟨-, h2⟩ := h
          subst h2
          rfl

theorem winWcToUniNext_of_iter_none {s : WinWcToUniIter}
    (h : s.iter = none) : winWcToUniNext s = (none, s) := by
  rcases s with ⟨pos, iter⟩
  simp only at h
  subst h
  rfl

theorem winWcToUniNext_error_iter_none {s s' : WinWcToUniIter}
    {e : WcToUniError} (h : winWcToUniNext s = (some (.error e), s')) :
    s'.iter = none := by
  rcases s with ⟨pos, iter⟩
  rcases iter with _ | ⟨_ | ⟨w, rest⟩⟩
  · simp [winWcToUniNext] at h
  · simp [winWcToUniNext] at h
  · simp only [winWcToUniNext] at h
    split at h
    · simp at h
    · split at h
      · rw [Prod.mk.injEq] at h
        obtain ⟨-, h2⟩ := h
        subst h2
        rfl
      · split at h
        · rw [Prod.mk.injEq] at h
          obtain ⟨-, h2⟩ := h
          subst h2
          rfl
        · split at h
          · simp at h
          · rw [Prod.mk.injEq] at h
            obtain ⟨-, h2⟩ := h
            subst h2
            rfl

theorem mbsToWcNext_of_iter_none {σ : Type} (f : List Nat → σ → MbrtowcResult σ)
    {s : MbsToWcIter σ} (h : s.iter = none) : mbsToWcNext f s = (none, s) := by
  rcases s with ⟨iter, pos, st⟩
  simp only at h
  subst h
  rfl

theorem mbsToWcNext_error_iter_none {σ : Type}
    {f : List Nat → σ → MbrtowcResult σ} {s s' : MbsToWcIter σ}
    {e : MbsToWcError} (h : mbsToWcNext f s = (some (.error e), s')) :
    s'.iter = none := by
  rcases s with ⟨iter, pos, st⟩
  rcases iter with _ | input
  · simp [mbsToWcNext] at h
  · simp only [mbsToWcNext] at h
    split at h
    · simp at h
    · rw [Prod.mk.injEq] at h
      obtain ⟨-, h2⟩ := h
      subst h2
      rfl
    · simp at h

theorem wcsToMbNext_of_dead {σ : Type} (g : Nat → σ → WcrtombResult σ)
    {s : WcsToMbIter σ} (h1 : s.iter = none) (h2 : s.buf = []) :
    wcsToMbNext g s = .yield none s := by
  rcases s with ⟨iter, pos, buf, st⟩
  simp only at h1 h2
  subst h1
  subst h2
  rfl

theorem wcsToMbNext_error_dead {σ : Type} {g : Nat → σ → WcrtombResult σ}
    {s s' : WcsToMbIter σ} {e : WcsToMbError}
    (h : wcsToMbNext g s = .yield (some (.error e)) s') :
    s'.iter = none ∧ s'.buf = [] := by
  rcases s with ⟨iter, pos, buf, st⟩
  rcases buf with _ | ⟨mbu, brest⟩
  · rcases iter with _ | ⟨_ | ⟨wcu, rest⟩⟩
    · simp [wcsToMbNext] at h
    · simp [wcsToMbNext] at h
    · simp only [wcsToMbNext] at h
      split at h
      · rename_i heq
        rw [WcsStep.yield.injEq] at h
        obtain ⟨-, h2⟩ := h
        subst h2
        exact ⟨rfl, rfl⟩
      · simp at h
      · split at h
        · simp at h
        · rw [WcsStep.yield.injEq] at h
          obtain ⟨h1, -⟩ := h
          simp at h1
  · simp [wcsToMbNext] at h

theorem wcsToMbNth_of_dead {σ : Type} (g : Nat → σ → WcrtombResult σ)
    {s : WcsToMbIter σ} (h1 : s.iter = none) (h2 : s.buf = []) :
    ∀ n, wcsToMbNth g n s = none := by
  intro n
  have hstep := wcsToMbNext_of_dead g h1 h2
  induction n with
  | zero => simp [wcsToMbNth, hstep]
  | succ n ih => simp [wcsToMbNth, hstep, ih]

theorem mem_of_getLast?_eq {α : Type} {l : List α} {z : α}
    (h : l.getLast? = some z) : z ∈ l := by
  cases l with
  | nil => simp at h
  | cons a t =>
    rw [List.getLast?_eq_getLast _ (by simp)] at h
    have hm := List.getLast_mem (l := a :: t) (by simp)
    rw [Option.some_inj] at h
    rw [← h]
    exact hm

theorem take_length_pred_append {α : Type} {l : List α} {z : α}
    (h : l.getLast? = some z) : List.take (l.length - 1) l ++ [z] = l := by
  have hne : l ≠ [] := by
    intro he
    subst he
    simp at h
  rw [← List.dropLast_eq_take]
  rw [List.getLast?_eq_getLast _ hne, Option.some_inj] at h
  rw [← h]
  exact List.dropLast_append_getLast hne

theorem zeroTermAddTerm_true_iff {α : Type} [DecidableEq α] (z : α)
    (units : List α) :
    zeroTermAddTerm z units = true ↔ (units = [] ∨ units.getLast? ≠ some z) := by
  simp [zeroTermAddTerm, List.length_pos, or_iff_not_imp_left]

/-- Characterisation of a successful `ZeroTerm::alloc_owned`: the buffer is
the input with the final cell zeroed (and extended by one unit when a
terminator is appended). -/
theorem zeroTermAllocOwned_ok_buf {α : Type} [DecidableEq α] {z : α}
    {wordMax unitB align : Nat} {ε : Type} {overflowErr : ε}
    {allocBytes : Nat → Nat → Except ε Unit} {units buf : List α}
    (h : zeroTermAllocOwned z wordMax unitB align overflowErr allocBytes units
      = .ok buf) :
    buf = units.take (zeroTermTotalU z units - 1) ++ [z] := by
  simp only [zeroTermAllocOwned] at h
  split at h
  · simp at h
  · split at h
    · simp at h
    · split at h
      · simp at h
      · rw [Except.ok.injEq] at h
        exact h.symm

theorem zeroTermSliceUnits_append_term {α : Type} [DecidableEq α] {z : α}
    {l : List α} (h : z ∉ l) : zeroTermSliceUnits z (l ++ [z]) = l := by
  induction l with
  | nil => simp [zeroTermSliceUnits]
  | cons a t ih =>
    have ha : ¬ (a = z) := by
      intro he
      exact h (by simp [he])
    have ht : z ∉ t := by
      intro hm
      exact h (by simp [hm])
    show zeroTermSliceUnits z (a :: (t ++ [z])) = a :: t
    simp only [zeroTermSliceUnits, if_neg ha]
    rw [ih ht]

/-! Claim theorems. -/

/-- C1: the claim states the Linux Wide-to-ValidatedUnicode transcoder accepts
a unit exactly when its value lies in [0x0, 0xD7FF] ∪ [0xE000, 0x10FFFF] and
yields `InvalidAt` otherwise.  The code violates this: its range arms are
`0x000000...0x02FFFF` / `0x030000...0x0DFFFF` / `0x0E0000...0x10FFFF`, so the
surrogate unit 0xD800 — outside the claimed set — is accepted and emitted as
a validated scalar, while the valid scalar 0x30000 — inside the claimed set —
is rejected with `InvalidAt 0`. -/
theorem spec_C1 :
    collectItems linuxWcToUniNext 2 ⟨0, some [0xD800]⟩ = [.ok 0xD800] ∧
    ¬ specValidScalar 0xD800 ∧
    collectItems linuxWcToUniNext 2 ⟨0, some [0x30000]⟩
      = [.error (.InvalidAt 0)] ∧
    specValidScalar 0x30000 := by
  refine ⟨rfl, by decide, rfl, by decide⟩

/-- C2: the UTF-16-host Wide-to-ValidatedUnicode transcoder maps the input
{0xD83D, 0xDE00} to exactly the scalar sequence {0x1F600}; any input
beginning with the lone low surrogate 0xDE00 yields exactly the error
`InvalidAt 0`; and the input consisting of the single high surrogate 0xD83D
followed by end of input yields exactly the error `Incomplete` (stated for
every poll budget, so the listed items are the complete output). -/
theorem spec_C2 :
    (∀ fuel, collectItems winWcToUniNext (fuel + 2)
      ⟨0, some [0xD83D, 0xDE00]⟩ = [.ok 0x1F600]) ∧
    (∀ rest fuel, collectItems winWcToUniNext (fuel + 1)
      ⟨0, some (0xDE00 :: rest)⟩ = [.error (.InvalidAt 0)]) ∧
    (∀ fuel, collectItems winWcToUniNext (fuel + 1)
      ⟨0, some [0xD83D]⟩ = [.error .Incomplete]) := by
  refine ⟨?_, ?_, ?_⟩
  · intro fuel
    have h1 : winWcToUniNext ⟨0, some [0xD83D, 0xDE00]⟩
        = (some (.ok 0x1F600), ⟨2, some []⟩) := rfl
    have h2 : winWcToUniNext ⟨2, some []⟩ = (none, ⟨2, some []⟩) := rfl
    simp [collectItems, h1, h2, collectItems_of_stuck _ _ h2]
  · intro rest fuel
    have h1 : winWcToUniNext ⟨0, some (0xDE00 :: rest)⟩
        = (some (.error (.InvalidAt 0)), ⟨0, none⟩) := by
      simp [winWcToUniNext]
    have h2 : winWcToUniNext ⟨0, none⟩ = (none, ⟨0, none⟩) := rfl
    simp [collectItems, h1, collectItems_of_stuck _ _ h2]
  · intro fuel
    have h1 : winWcToUniNext ⟨0, some [0xD83D]⟩
        = (some (.error .Incomplete), ⟨0, none⟩) := rfl
    have h2 : winWcToUniNext ⟨0, none⟩ = (none, ⟨0, none⟩) := rfl
    simp [collectItems, h1, collectItems_of_stuck _ _ h2]

/-- C4: every non-`Recoverable` transcoding iterator of the library fuses on
error — once `next` has yielded an `Err` item, every subsequent call returns
absent.  Proved for the Linux and Windows wide-to-Unicode iterators and, for
every behaviour of the host conversion routines, for the multibyte-to-wide
and wide-to-multibyte iterators (the Unicode-to-wide iterators have the
uninhabited error type `NoError` and can never yield an error item). -/
theorem spec_C4 :
    (∀ (s : LinuxWcToUniIter) (e : WcToUniError) (s' : LinuxWcToUniIter),
      linuxWcToUniNext s = (some (.error e), s') →
      ∀ n, nthItem linuxWcToUniNext n s' = none) ∧
    (∀ (s : WinWcToUniIter) (e : WcToUniError) (s' : WinWcToUniIter),
      winWcToUniNext s = (some (.error e), s') →
      ∀ n, nthItem winWcToUniNext n s' = none) ∧
    (∀ (σ : Type) (f : List Nat → σ → MbrtowcResult σ) (s : MbsToWcIter σ)
      (e : MbsToWcError) (s' : MbsToWcIter σ),
      mbsToWcNext f s = (some (.error e), s') →
      ∀ n, nthItem (mbsToWcNext f) n s' = none) ∧
    (∀ (σ : Type) (g : Nat → σ → WcrtombResult σ) (s : WcsToMbIter σ)
      (e : WcsToMbError) (s' : WcsToMbIter σ),
      wcsToMbNext g s = .yield (some (.error e)) s' →
      ∀ n, wcsToMbNth g n s' = none) := by
  refine ⟨?_, ?_, ?_, ?_⟩
  · intro s e s' h n
    exact nthItem_of_stuck _ _
      (linuxWcToUniNext_of_iter_none (linuxWcToUniNext_error_iter_none h)) n
  · intro s e s' h n
    exact nthItem_of_stuck _ _
      (winWcToUniNext_of_iter_none (winWcToUniNext_error_iter_none h)) n
  · intro σ f s e s' h n
    exact nthItem_of_stuck _ _
      (mbsToWcNext_of_iter_none f (mbsToWcNext_error_iter_none h)) n
  · intro σ g s e s' h n
    obtain ⟨h1, h2⟩ := wcsToMbNext_error_dead h
    exact wcsToMbNth_of_dead g h1 h2 n

/-- Witness for C4: each fusing statement applied at a concrete erroring
input — the Linux iterator on unit 0x30000, the Windows iterator on the lone
low surrogate 0xDE00, and the multibyte iterators with host routines that
report an illegal sequence on the unit 7. -/
theorem spec_C4_witness :
    (linuxWcToUniNext ⟨0, some [0x30000]⟩
        = (some (.error (.InvalidAt 0)), ⟨0, none⟩) ∧
      nthItem linuxWcToUniNext 5 ⟨0, none⟩ = none) ∧
    (winWcToUniNext ⟨0, some [0xDE00]⟩
        = (some (.error (.InvalidAt 0)), ⟨0, none⟩) ∧
      nthItem winWcToUniNext 5 ⟨0, none⟩ = none) ∧
    (mbsToWcNext (fun _ _ => MbrtowcResult.illegal)
        (⟨some [7], 0, ()⟩ : MbsToWcIter Unit)
        = (some (.error (.InvalidAt 0)), ⟨none, 0, ()⟩) ∧
      nthItem (mbsToWcNext (fun _ _ => MbrtowcResult.illegal)) 5
        (⟨none, 0, ()⟩ : MbsToWcIter Unit) = none) ∧
    (wcsToMbNext (fun _ _ => WcrtombResult.illegal)
        (⟨some [7], 0, [], ()⟩ : WcsToMbIter Unit)
        = .yield (some (.error (.InvalidAt 0))) ⟨none, 0, [], ()⟩ ∧
      wcsToMbNth (fun _ _ => WcrtombResult.illegal) 5
        (⟨none, 0, [], ()⟩ : WcsToMbIter Unit) = none) := by
  refine ⟨⟨rfl, ?_⟩, ⟨rfl, ?_⟩, ⟨rfl, ?_⟩, ⟨rfl, ?_⟩⟩
  · exact spec_C4.1 ⟨0, some [0x30000]⟩ (.InvalidAt 0) ⟨0, none⟩ rfl 5
  · exact spec_C4.2.1 ⟨0, some [0xDE00]⟩ (.InvalidAt 0) ⟨0, none⟩ rfl 5
  · exact spec_C4.2.2.1 Unit (fun _ _ => MbrtowcResult.illegal)
      ⟨some [7], 0, ()⟩ (.InvalidAt 0) ⟨none, 0, ()⟩ rfl 5
  · exact spec_C4.2.2.2 Unit (fun _ _ => WcrtombResult.illegal)
      ⟨some [7], 0, [], ()⟩ (.InvalidAt 0) ⟨none, 0, [], ()⟩ rfl 5

/-- C3 counterexample: for the `ZeroTerm` structure the claim fails at the
unit slice [0] — allocation succeeds and produces the buffer [0], but
`as_units()` scans up to the first zero unit and returns the empty sequence,
not [0]. -/
theorem spec_C3_counterexample :
    zeroTermNewThenAsUnits (0 : Nat) 1000 1 1 AllocError.SizeOverflow
      (fun _ _ => .ok ()) [0] = .ok [] ∧
    ([] : List Nat) ≠ [0] := by
  exact ⟨rfl, by decide⟩

/-- C3 (amended): constructing an owned string from the unit slice u and
reading `as_units()` yields exactly u whenever construction succeeds —
unconditionally for the `Slice` structure, and for the `ZeroTerm` structure
provided u contains no zero unit (with a zero unit the scan of `as_units()`
stops early, as the counterexample shows). -/
theorem spec_C3 :
    (∀ {α : Type} [DecidableEq α] (z : α) (wordMax unitB align : Nat)
      {ε : Type} (overflowErr : ε) (allocBytes : Nat → Nat → Except ε Unit)
      (units r : List α), z ∉ units →
      zeroTermNewThenAsUnits z wordMax unitB align overflowErr allocBytes
        units = .ok r → r = units) ∧
    (∀ {α : Type} (wordMax unitB align : Nat) {ε : Type} (overflowErr : ε)
      (allocBytes : Nat → Nat → Except ε Unit) (units r : List α),
      sliceNewThenAsUnits wordMax unitB align overflowErr allocBytes units
        = .ok r → r = units) := by
  constructor
  · intro α _ z wordMax unitB align ε overflowErr allocBytes units r hz h
    unfold zeroTermNewThenAsUnits at h
    cases halloc : zeroTermAllocOwned z wordMax unitB align overflowErr
        allocBytes units with
    | error e =>
      rw [halloc] at h
      simp [Except.map] at h
    | ok buf =>
      rw [halloc] at h
      simp only [Except.map] at h
      rw [Except.ok.injEq] at h
      have haddt : zeroTermAddTerm z units = true := by
        rw [zeroTermAddTerm_true_iff]
        by_cases hu : units = []
        · exact Or.inl hu
        · refine Or.inr ?_
          intro hlast
          exact hz (mem_of_getLast?_eq hlast)
      have htot : zeroTermTotalU z units = units.length + 1 := by
        simp [zeroTermTotalU, haddt]
      have hbuf : buf = units ++ [z] := by
        have hb := zeroTermAllocOwned_ok_buf halloc
        rw [htot, Nat.add_sub_cancel, List.take_length] at hb
        exact hb
      subst hbuf
      rw [zeroTermSliceUnits_append_term hz] at h
      exact h.symm
  · intro α wordMax unitB align ε overflowErr allocBytes units r h
    unfold sliceNewThenAsUnits at h
    cases halloc : sliceAllocOwned wordMax unitB align overflowErr allocBytes
        units with
    | error e =>
      rw [halloc] at h
      simp [Except.map] at h
    | ok buf =>
      rw [halloc] at h
      simp only [Except.map, sliceSliceUnits] at h
      rw [Except.ok.injEq] at h
      have hbuf : buf = units := by
        simp only [sliceAllocOwned] at halloc
        split at halloc
        · simp at halloc
        · split at halloc
          · simp at halloc
          · rw [Except.ok.injEq] at halloc
            exact halloc.symm
      subst hbuf
      exact h.symm

/-- Witness for C3: the amended claim applied at concrete inputs — the
zero-free slice [1, 2] for `ZeroTerm` and the slice [3, 0, 4] (interior zero
allowed) for `Slice`, both with a word size of 100 and an always-succeeding
allocator. -/
theorem spec_C3_witness :
    ((0 : Nat) ∉ ([1, 2] : List Nat) ∧
      zeroTermNewThenAsUnits (0 : Nat) 100 1 1 AllocError.SizeOverflow
        (fun _ _ => .ok ()) [1, 2] = .ok [1, 2] ∧
      ([1, 2] : List Nat) = [1, 2]) ∧
    (sliceNewThenAsUnits (α := Nat) 100 1 1 AllocError.SizeOverflow
        (fun _ _ => .ok ()) [3, 0, 4] = .ok [3, 0, 4] ∧
      ([3, 0, 4] : List Nat) = [3, 0, 4]) := by
  refine ⟨⟨by decide, rfl, ?_⟩, ⟨rfl, ?_⟩⟩
  · exact spec_C3.1 0 100 1 1 AllocError.SizeOverflow (fun _ _ => .ok ())
      [1, 2] [1, 2] (by decide) (by rfl)
  · exact spec_C3.2 100 1 1 AllocError.SizeOverflow (fun _ _ => .ok ())
      [3, 0, 4] [3, 0, 4] (by rfl)

/-- C5: for both `OwnershipTransfer` structures (`ZeroTerm` and `Slice`) and
every owned string with a valid (non-null, non-relinquished) allocation,
`from_ptr` applied to the pointer returned by `into_ptr` yields `Some` of a
string with the same owned representation; and `into_ptr` moves the owned
field to the null state before suppressing the destructor, so the residual
owned value frees nothing when handed to `free_owned`. -/
theorem spec_C5 :
    (∀ x : SeaStringZPtr, x.owned ≠ 0 →
      seaFromPtrZ (seaIntoPtrZ x).1 = some x ∧
      (seaIntoPtrZ x).2 = 0 ∧
      zeroTermFreeOwned (seaIntoPtrZ x).2 = none) ∧
    (∀ x : SeaStringSPtr, x.owned.1 ≠ 0 →
      seaFromPtrS (seaIntoPtrS x).1 = some x ∧
      (seaIntoPtrS x).2 = (0, 0) ∧
      sliceFreeOwned (seaIntoPtrS x).2 = none) := by
  constructor
  · intro x hx
    refine ⟨?_, rfl, rfl⟩
    rcases x with ⟨o⟩
    simp only at hx
    simp [seaFromPtrZ, seaIntoPtrZ, zeroTermIntoFfiPtr,
      zeroTermOwnedFromFfiPtr, hx]
  · intro x hx
    refine ⟨?_, rfl, rfl⟩
    rcases x with ⟨o⟩
    simp only at hx
    simp [seaFromPtrS, seaIntoPtrS, sliceIntoFfiPtr,
      sliceOwnedFromFfiPtr, hx]

/-- Witness for C5: the roundtrip applied to the concrete owned pointer 5
(`ZeroTerm`) and the owned pair (7, 3) (`Slice`). -/
theorem spec_C5_witness :
    ((5 : Nat) ≠ 0 ∧
      (seaFromPtrZ (seaIntoPtrZ ⟨5⟩).1 = some ⟨5⟩ ∧
        (seaIntoPtrZ ⟨5⟩).2 = 0 ∧
        zeroTermFreeOwned (seaIntoPtrZ ⟨5⟩).2 = none)) ∧
    ((7 : Nat) ≠ 0 ∧
      (seaFromPtrS (seaIntoPtrS ⟨(7, 3)⟩).1 = some ⟨(7, 3)⟩ ∧
        (seaIntoPtrS ⟨(7, 3)⟩).2 = (0, 0) ∧
        sliceFreeOwned (seaIntoPtrS ⟨(7, 3)⟩).2 = none)) := by
  refine ⟨⟨by decide, ?_⟩, ⟨by decide, ?_⟩⟩
  · exact spec_C5.1 ⟨5⟩ (by decide)
  · exact spec_C5.2 ⟨(7, 3)⟩ (by decide)

/-- C6: for both `ZeroTerm` and `Slice`, `alloc_owned` returns the
allocator's overflow error whenever the byte size — the unit count (plus one
terminator unit for `ZeroTerm` when one must be appended) multiplied by the
unit size — exceeds the machine word, and in that case the allocator is
never consulted (the same error results for every `alloc_bytes`). -/
theorem spec_C6 :
    (∀ {α : Type} [DecidableEq α] (z : α) (wordMax unitB align : Nat)
      {ε : Type} (overflowErr : ε) (units : List α),
      wordMax < zeroTermTotalB z unitB units →
      ∀ allocBytes : Nat → Nat → Except ε Unit,
        zeroTermAllocOwned z wordMax unitB align overflowErr allocBytes units
          = .error overflowErr) ∧
    (∀ {α : Type} (wordMax unitB align : Nat) {ε : Type} (overflowErr : ε)
      (units : List α),
      wordMax < units.length * unitB →
      ∀ allocBytes : Nat → Nat → Except ε Unit,
        sliceAllocOwned wordMax unitB align overflowErr allocBytes units
          = .error overflowErr) := by
  constructor
  · intro α _ z wordMax unitB align ε overflowErr units hov allocBytes
    by_cases h1 : wordMax < zeroTermTotalU z units
    · simp [zeroTermAllocOwned, h1]
    · simp [zeroTermAllocOwned, h1, hov]
  · intro α wordMax unitB align ε overflowErr units hov allocBytes
    simp [sliceAllocOwned, hov]

/-- Witness for C6: a word size of 3 with two-byte units and the two-unit
slice [1, 1] overflows both structures' byte computations (`ZeroTerm`
appends a terminator: 3 units × 2 bytes; `Slice`: 2 units × 2 bytes), and
the overflow error is produced even with an always-succeeding allocator. -/
theorem spec_C6_witness :
    (3 < zeroTermTotalB (0 : Nat) 2 [1, 1] ∧
      zeroTermAllocOwned (0 : Nat) 3 2 1 AllocError.SizeOverflow
        (fun _ _ => .ok ()) [1, 1] = .error .SizeOverflow) ∧
    (3 < ([1, 1] : List Nat).length * 2 ∧
      sliceAllocOwned (α := Nat) 3 2 1 AllocError.SizeOverflow
        (fun _ _ => .ok ()) [1, 1] = .error .SizeOverflow) := by
  refine ⟨⟨by decide, ?_⟩, ⟨by decide, ?_⟩⟩
  · exact spec_C6.1 0 3 2 1 AllocError.SizeOverflow [1, 1] (by decide) _
  · exact spec_C6.2 3 2 1 AllocError.SizeOverflow [1, 1] (by decide) _

/-- C7: when `ZeroTerm::alloc_owned` succeeds, exactly one zero terminator is
appended iff the supplied units are empty or do not already end in the zero
unit (the buffer then has one more unit than the input, and otherwise exactly
the input's length), and in every successful case the buffer's last unit is
the zero unit. -/
theorem spec_C7 :
    ∀ {α : Type} [DecidableEq α] (z : α) (wordMax unitB align : Nat)
      {ε : Type} (overflowErr : ε) (allocBytes : Nat → Nat → Except ε Unit)
      (units buf : List α),
      zeroTermAllocOwned z wordMax unitB align overflowErr allocBytes units
        = .ok buf →
      (zeroTermAddTerm z units = true
        ↔ (units = [] ∨ units.getLast? ≠ some z)) ∧
      buf = units
        ++ (if units = [] ∨ units.getLast? ≠ some z then [z] else []) ∧
      buf.length = (if units = [] ∨ units.getLast? ≠ some z
        then units.length + 1 else units.length) ∧
      buf.getLast? = some z := by
  intro α _ z wordMax unitB align ε overflowErr allocBytes units buf h
  have hbuf := zeroTermAllocOwned_ok_buf h
  by_cases hc : units = [] ∨ units.getLast? ≠ some z
  · have haddt : zeroTermAddTerm z units = true :=
      (zeroTermAddTerm_true_iff z units).mpr hc
    have htot : zeroTermTotalU z units = units.length + 1 := by
      simp [zeroTermTotalU, haddt]
    rw [htot, Nat.add_sub_cancel, List.take_length] at hbuf
    refine ⟨zeroTermAddTerm_true_iff z units, ?_, ?_, ?_⟩
    · rw [if_pos hc]
      exact hbuf
    · rw [if_pos hc, hbuf]
      simp
    · rw [hbuf]
      exact List.getLast?_concat units
  · have haddt : zeroTermAddTerm z units = false := by
      cases hb : zeroTermAddTerm z units with
      | false => rfl
      | true => exact absurd ((zeroTermAddTerm_true_iff z units).mp hb) hc
    have hlast : units.getLast? = some z := by
      push_neg at hc
      exact hc.2
    have htot : zeroTermTotalU z units = units.length := by
      simp [zeroTermTotalU, haddt]
    rw [htot, take_length_pred_append hlast] at hbuf
    refine ⟨zeroTermAddTerm_true_iff z units, ?_, ?_, ?_⟩
    · rw [if_neg hc, hbuf]
      simp
    · rw [if_neg hc, hbuf]
    · rw [hbuf]
      exact hlast

/-- Witness for C7: allocation from [1, 2] (which does not end in zero)
produces the buffer [1, 2, 0], with the characterisation instantiated
there. -/
theorem spec_C7_witness :
    zeroTermAllocOwned (0 : Nat) 100 1 1 AllocError.SizeOverflow
      (fun _ _ => .ok ()) [1, 2] = .ok [1, 2, 0] ∧
    ((zeroTermAddTerm (0 : Nat) [1, 2] = true
        ↔ (([1, 2] : List Nat) = []
          ∨ ([1, 2] : List Nat).getLast? ≠ some 0)) ∧
      ([1, 2, 0] : List Nat) = [1, 2]
        ++ (if ([1, 2] : List Nat) = []
          ∨ ([1, 2] : List Nat).getLast? ≠ some 0 then [0] else []) ∧
      ([1, 2, 0] : List Nat).length
        = (if ([1, 2] : List Nat) = []
          ∨ ([1, 2] : List Nat).getLast? ≠ some 0 then [1, 2].length + 1
          else [1, 2].length) ∧
      ([1, 2, 0] : List Nat).getLast? = some 0) := by
  refine ⟨rfl, ?_⟩
  exact spec_C7 0 100 1 1 AllocError.SizeOverflow (fun _ _ => .ok ())
    [1, 2] [1, 2, 0] (by rfl)

/-- C8: for every valid zero-terminated string (a buffer containing the zero
unit), the last unit of `as_units_with_term()` is the zero unit, and removing
that last unit yields exactly `as_units()`. -/
theorem spec_C8 :
    ∀ {α : Type} [DecidableEq α] (z : α) (buf : List α), z ∈ buf →
      (zeroTermSliceUnitsWithTerm z buf).getLast? = some z ∧
      (zeroTermSliceUnitsWithTerm z buf).dropLast
        = zeroTermSliceUnits z buf := by
  intro α _ z buf hz
  induction buf with
  | nil => simp at hz
  | cons a t ih =>
    by_cases ha : a = z
    · subst ha
      constructor
      · simp [zeroTermSliceUnitsWithTerm]
      · simp [zeroTermSliceUnitsWithTerm, zeroTermSliceUnits]
    · have ht : z ∈ t := by
        rcases List.mem_cons.mp hz with h | h
        · exact absurd h.symm ha
        · exact h
      obtain ⟨ih1, ih2⟩ := ih ht
      have hne : zeroTermSliceUnitsWithTerm z t ≠ [] := by
        intro he
        rw [he] at ih1
        simp at ih1
      constructor
      · simp only [zeroTermSliceUnitsWithTerm, if_neg ha]
        cases hwt : zeroTermSliceUnitsWithTerm z t with
        | nil => exact absurd hwt hne
        | cons b t2 =>
          rw [List.getLast?_cons_cons, ← hwt]
          exact ih1
      · simp only [zeroTermSliceUnitsWithTerm, zeroTermSliceUnits, if_neg ha]
        cases hwt : zeroTermSliceUnitsWithTerm z t with
        | nil => exact absurd hwt hne
        | cons b t2 =>
          show (b :: t2).dropLast.cons a = _
          rw [← hwt, ih2]

/-- Witness for C8: the terminator invariant at the concrete buffer
[1, 2, 0, 9], whose with-terminator slice is [1, 2, 0]. -/
theorem spec_C8_witness :
    (0 : Nat) ∈ ([1, 2, 0, 9] : List Nat) ∧
    ((zeroTermSliceUnitsWithTerm (0 : Nat) [1, 2, 0, 9]).getLast? = some 0 ∧
      (zeroTermSliceUnitsWithTerm (0 : Nat) [1, 2, 0, 9]).dropLast
        = zeroTermSliceUnits 0 [1, 2, 0, 9]) := by
  refine ⟨by decide, ?_⟩
  exact spec_C8 0 [1, 2, 0, 9] (by decide)

/-- C9: `SeaString::new` over `ZeroTerm` performs no interior-zero
validation: for every unit slice — zero units before the end included —
construction returns Ok whenever the size computations fit the machine word
and the underlying allocation succeeds; the result type confines every
possible failure to the allocator's error type. -/
theorem spec_C9 :
    ∀ {α : Type} [DecidableEq α] (z : α) (wordMax unitB align : Nat)
      {ε : Type} (overflowErr : ε) (allocBytes : Nat → Nat → Except ε Unit)
      (units : List α),
      1 ≤ unitB →
      (units.length + 1) * unitB ≤ wordMax →
      allocBytes (zeroTermTotalB z unitB units) align = .ok () →
      (seaStringNewZ z wordMax unitB align overflowErr allocBytes units).isOk
        = true := by
  intro α _ z wordMax unitB align ε overflowErr allocBytes units hu hw ha
  have htotU : zeroTermTotalU z units ≤ units.length + 1 := by
    have hle : (if zeroTermAddTerm z units then 1 else 0) ≤ 1 := by
      split <;> omega
    unfold zeroTermTotalU
    omega
  have h1 : ¬ (wordMax < zeroTermTotalU z units) := by
    have h2 : units.length + 1 ≤ (units.length + 1) * unitB :=
      Nat.le_mul_of_pos_right _ hu
    omega
  have h3 : ¬ (wordMax < zeroTermTotalB z unitB units) := by
    have hB : zeroTermTotalB z unitB units ≤ (units.length + 1) * unitB := by
      unfold zeroTermTotalB
      exact Nat.mul_le_mul_right unitB htotU
    omega
  unfold seaStringNewZ zeroTermAllocOwned
  rw [if_neg h1, if_neg h3, ha]
  rfl

/-- Witness for C9: construction from the slice [1, 0, 2] — which contains
an interior zero unit — succeeds with single-byte units, a word size of 100
and an always-succeeding allocator. -/
theorem spec_C9_witness :
    (1 ≤ 1) ∧
    ((([1, 0, 2] : List Nat).length + 1) * 1 ≤ 100) ∧
    ((fun _ _ => (Except.ok () : Except AllocError Unit))
      (zeroTermTotalB (0 : Nat) 1 [1, 0, 2]) 1 = .ok ()) ∧
    (seaStringNewZ (0 : Nat) 100 1 1 AllocError.SizeOverflow
      (fun _ _ => .ok ()) [1, 0, 2]).isOk = true := by
  refine ⟨by decide, by decide, rfl, ?_⟩
  exact spec_C9 0 100 1 1 AllocError.SizeOverflow (fun _ _ => .ok ())
    [1, 0, 2] (by decide) (by decide) (by rfl)

/-- C10: equality of borrowed strings — within and across the `ZeroTerm` and
`Slice` structures — holds iff the `as_units()` sequences are equal, and the
hash, being `hash_slice` applied to `as_units()`, is equal whenever the unit
sequences are (for every hasher behaviour `hashSlice`). -/
theorem spec_C10 :
    (∀ {α : Type} [DecidableEq α] (z : α) (a b : List α),
      seStrEqZZ z a b ↔ seStrAsUnitsZ z a = seStrAsUnitsZ z b) ∧
    (∀ {α : Type} [DecidableEq α] (z : α) (a b : List α),
      seStrEqZS z a b ↔ seStrAsUnitsZ z a = seStrAsUnitsS b) ∧
    (∀ {α : Type} (a b : List α),
      seStrEqSS a b ↔ seStrAsUnitsS a = seStrAsUnitsS b) ∧
    (∀ {α β : Type} [DecidableEq α] (z : α) (hashSlice : List α → β)
      (a b : List α), seStrAsUnitsZ z a = seStrAsUnitsZ z b →
      seStrHashZ z hashSlice a = seStrHashZ z hashSlice b) ∧
    (∀ {α β : Type} [DecidableEq α] (z : α) (hashSlice : List α → β)
      (a b : List α), seStrAsUnitsZ z a = seStrAsUnitsS b →
      seStrHashZ z hashSlice a = seStrHashS hashSlice b) := by
  refine ⟨?_, ?_, ?_, ?_, ?_⟩
  · intro α _ z a b
    exact Iff.rfl
  · intro α _ z a b
    exact Iff.rfl
  · intro α a b
    exact Iff.rfl
  · intro α β _ z hashSlice a b h
    unfold seStrHashZ
    rw [h]
  · intro α β _ z hashSlice a b h
    unfold seStrHashZ seStrHashS
    rw [h]

/-- Witness for C10: the `ZeroTerm` buffers [1, 0, 5] and [1, 0, 9] have
equal `as_units()` (both [1]) and hence equal hashes; the `ZeroTerm` buffer
[1, 0, 5] and the `Slice` view [1] likewise hash equally across structures. -/
theorem spec_C10_witness :
    (seStrAsUnitsZ (0 : Nat) [1, 0, 5] = seStrAsUnitsZ 0 [1, 0, 9] ∧
      seStrHashZ (0 : Nat) List.length [1, 0, 5]
        = seStrHashZ 0 List.length [1, 0, 9]) ∧
    (seStrAsUnitsZ (0 : Nat) [1, 0, 5] = seStrAsUnitsS [1] ∧
      seStrHashZ (0 : Nat) List.length [1, 0, 5]
        = seStrHashS List.length [1]) := by
  refine ⟨⟨rfl, ?_⟩, ⟨rfl, ?_⟩⟩
  · exact spec_C10.2.2.2.1 0 List.length [1, 0, 5] [1, 0, 9] rfl
  · exact spec_C10.2.2.2.2 0 List.length [1, 0, 5] [1] rfl

end Strffi
